import Mathlib

/-!
Verification development for `spblob/blobnn` (src/blobnn.cpp).

The file shallowly embeds the parts of the program that the checked
properties talk about:

* an 8-bit grayscale raster model (`Mat`) together with the OpenCV
  primitives the program applies to it (binary thresholding, filled
  contour drawing, 3x3 erosion and dilation, masked means);
* the per-ROI mask-synthesis and statistics pipeline of `process`
  (blobnn.cpp lines 434-724), with the neural-network inference and the
  contour extraction treated as oracle parameters, exactly as the code
  treats them as external library calls;
* the ledger merge algorithm: manifest scanning of `main`
  (lines 361-418) and the three-phase carry-forward / regenerate /
  carry-forward emission of `process` (lines 617-719).
-/

set_option maxHeartbeats 1000000
set_option linter.unusedVariables false

namespace Blobnn

/-! ### Rasters

`Mat` models a single-channel 8-bit OpenCV matrix.  Pixel access is by
(row, column); the pixel function is total on `ℤ × ℤ` and the matrix
extent is carried alongside for the border handling of the
morphological operators. -/

structure Mat where
  rows : ℕ
  cols : ℕ
  px : ℤ → ℤ → ℕ

/-- An all-black matrix, `cv::Mat::zeros` / `cv::Mat(..., Scalar(0))`. -/
def zerosMat (rows cols : ℕ) : Mat := ⟨rows, cols, fun _ _ => 0⟩

/-- The 3x3 black placeholder pushed for failed detections
(blobnn.cpp lines 452-456): `cv::Mat(cv::Size(3, 3), CV_8U, cv::Scalar(0))`. -/
def zeros3 : Mat := zerosMat 3 3

/-- Whether a coordinate lies inside the matrix extent. -/
def inBounds (m : Mat) (r c : ℤ) : Bool :=
  decide (0 ≤ r) && decide (r < (m.rows : ℤ)) &&
  decide (0 ≤ c) && decide (c < (m.cols : ℤ))

/-! ### Program configuration

Globals of blobnn.cpp lines 41-44: `start_id = 1`,
`end_id = INT32_MAX - 10`, `pred_cutoff = 180`.  They are set once from
the command line (`--start`, `--end`, `--cutoff`) before processing. -/

def INT32_MAX : ℤ := 2147483647

structure Config where
  start_id : ℤ
  end_id : ℤ
  pred_cutoff : ℤ

/-- The default configuration (blobnn.cpp lines 41-44). -/
def defaultConfig : Config := ⟨1, INT32_MAX - 10, 180⟩

/-! ### Binarization

`cv::threshold(src, dst, thresh, maxval, cv::THRESH_BINARY)`:
`dst(p) = maxval` if `src(p) > thresh` else `0`. -/

def threshBinaryMat (thresh maxval : ℕ) (m : Mat) : Mat :=
  ⟨m.rows, m.cols, fun r c => if thresh < m.px r c then maxval else 0⟩

/-- The binarization step of `process` (blobnn.cpp line 515):
`cv::threshold(outcv, binary, 180, 255, cv::THRESH_BINARY)`.
The threshold argument is the literal constant `180`; the global
`pred_cutoff` set from `--cutoff` (line 44, line 216) is not read
anywhere in `process`, so the configuration is a dead parameter here. -/
def binarizeMat (cfg : Config) (m : Mat) : Mat :=
  threshBinaryMat 180 255 m

/-- A constant probability raster whose every pixel has value 150,
used as a concrete input for the cutoff claim. -/
def raster150 : Mat := ⟨3, 3, fun _ _ => 150⟩

/-- C1: the claim says the binary mask depends on the configured
cutoff (`--cutoff`, default 180), so that changing the configured
cutoff changes which pixels pass.  In the code the threshold call uses
the literal `180` and never reads `pred_cutoff`: the binarization is
the same function for every configuration, and with configured cutoff
100 a raster pixel of value 150 (which the claim says should pass,
since 150 > 100) is still mapped to 0 because 150 ≤ 180. -/
theorem C1_cutoff_ignored :
    (∀ c₁ c₂ : Config, binarizeMat c₁ = binarizeMat c₂) ∧
    (binarizeMat ⟨1, INT32_MAX - 10, 100⟩ raster150).px 0 0 = 0 ∧
    (100 : ℤ) < 150 :=
  ⟨fun _ _ => rfl, by decide, by decide⟩

/-- C9: the default of `end_id` is `INT32_MAX - 10`
(blobnn.cpp line 42, with the comment "we will calculate end_id + 1,
no overflow then"), and `end_id + 1` — the lower bound of the
carry-forward-high loop at line 713 — still fits a 32-bit signed
integer. -/
theorem C9_default_end_no_overflow :
    defaultConfig.end_id = INT32_MAX - 10 ∧
    INT32_MAX = 2 ^ 31 - 1 ∧
    -(2 ^ 31) ≤ defaultConfig.end_id + 1 ∧
    defaultConfig.end_id + 1 ≤ INT32_MAX := by
  refine ⟨rfl, by decide, by decide, by decide⟩

/-! ### Morphology

3x3 square structuring element (`cv::getStructuringElement(MORPH_RECT,
Size(3, 3))`, anchor at the center).  The default OpenCV border for
erosion pads with the maximal value and for dilation with the minimal
value, so out-of-extent neighbours never shrink an eroded mask and
never grow a dilated one; the model therefore only quantifies over
in-extent neighbours. -/

def offs : List ℤ := [-1, 0, 1]

/-- One application of `cv::erode` / `morphologyEx(MORPH_ERODE)` with
the 3x3 square kernel: a pixel survives iff it is in extent and every
in-extent pixel of its 3x3 neighbourhood is nonzero. -/
def erode3 (m : Mat) : Mat :=
  ⟨m.rows, m.cols, fun r c =>
    if inBounds m r c &&
        (offs.all fun dr => offs.all fun dc =>
          !inBounds m (r + dr) (c + dc) || decide (m.px (r + dr) (c + dc) ≠ 0))
    then 255 else 0⟩

/-- One application of `cv::dilate` / `morphologyEx(MORPH_DILATE)` with
the 3x3 square kernel. -/
def dilate3 (m : Mat) : Mat :=
  ⟨m.rows, m.cols, fun r c =>
    if inBounds m r c &&
        (offs.any fun dr => offs.any fun dc =>
          inBounds m (r + dr) (c + dc) && decide (m.px (r + dr) (c + dc) ≠ 0))
    then 255 else 0⟩

/-! ### Masked statistics -/

/-- The in-extent nonzero pixels of a mask. -/
def nzPixels (m : Mat) : Finset (ℕ × ℕ) :=
  (Finset.range m.rows ×ˢ Finset.range m.cols).filter
    (fun rc => m.px (rc.1 : ℤ) (rc.2 : ℤ) ≠ 0)

/-- Count of nonzero mask pixels; `any(mask)` of the code
(blobnn.cpp line 656), which per the spec (§4.3) is "count of nonzero
mask pixels". -/
def nzCount (m : Mat) : ℕ := (nzPixels m).card

/-- Sum of image values over the nonzero pixels of a mask. -/
def maskedSum (img mask : Mat) : ℕ :=
  (nzPixels mask).sum (fun rc => img.px (rc.1 : ℤ) (rc.2 : ℤ))

/-- Masked mean, `cv::mean(img, mask)[0]`: arithmetic mean of the
image over the nonzero pixels of the mask; OpenCV yields 0 when the
mask is empty. -/
def meanMasked (img mask : Mat) : ℚ :=
  if nzCount mask = 0 then 0 else (maskedSum img mask : ℚ) / (nzCount mask : ℚ)

/-! ### Contours and mask synthesis

`cv::findContours` and the geometry of a contour (its enclosed area,
its filled region as drawn by `cv::drawContours(..., FILLED)`, and the
right edge `x + width` of its bounding rectangle) are external OpenCV
computations; the model carries them as data of an abstract contour. -/

structure Contour where
  area : ℚ
  region : ℤ → ℤ → Bool
  bbRight : ℤ

/-- Filled drawing, `cv::drawContours(m, ..., Scalar(v), FILLED)`:
pixels of the region are set to `v`, all others keep their value. -/
def draw (m : Mat) (reg : ℤ → ℤ → Bool) (v : ℕ) : Mat :=
  ⟨m.rows, m.cols, fun r c => if reg r c then v else m.px r c⟩

/-- Fixed margin of the loose background rectangle and iteration count
of the strict-background erosion (blobnn.cpp line 528): `padding = 5`. -/
def padding : ℕ := 5

/-- The initial loose-background polygon `bginit1` (lines 530-536): the
axis-aligned rectangle with corners `(padding, padding)` and
`(cols - padding, rows - padding)`, drawn filled, boundary included. -/
def insetRect (rows cols : ℕ) : ℤ → ℤ → Bool := fun r c =>
  decide ((padding : ℤ) ≤ c) && decide (c ≤ (cols : ℤ) - (padding : ℤ)) &&
  decide ((padding : ℤ) ≤ r) && decide (r ≤ (rows : ℤ) - (padding : ℤ))

/-- The carve-out polygon `bgcont1` for one foreground contour
(lines 556-563): from the right edge of the bounding box of the contour to
the right edge of the ROI, full height. -/
def rightRect (rows cols : ℕ) (bbRight : ℤ) : ℤ → ℤ → Bool := fun r c =>
  decide (bbRight ≤ c) && decide (c ≤ (cols : ℤ)) &&
  decide (0 ≤ r) && decide (r ≤ (rows : ℤ))

/-- The foreground area gate of line 544: `area > 1000 && area < 50000`. -/
def passesArea (c : Contour) : Bool :=
  decide ((1000 : ℚ) < c.area) && decide (c.area < (50000 : ℚ))

/-- Mutable state of the contour loop of lines 538-577: the foreground
mask `fg`, the loose background mask `bgloose` and the `detected` flag. -/
structure SynthState where
  fg : Mat
  bgloose : Mat
  detected : Bool

/-- One iteration of the contour loop (lines 538-577).  A contour whose
area passes the gate is drawn filled into the foreground mask, sets
`detected`, and carves out of the loose background both the rectangle
right of its bounding box and its own filled region; any other contour
changes nothing (its visualization outline is not modelled). -/
def synthStep (rows cols : ℕ) (s : SynthState) (c : Contour) : SynthState :=
  if passesArea c then
    { fg := draw s.fg c.region 255
      bgloose := draw (draw s.bgloose (rightRect rows cols c.bbRight) 0) c.region 0
      detected := true }
  else s

/-- The four per-ROI masks (§3 of the spec): strict background, loose
background, foreground and the probability raster (`graymask`). -/
structure MaskSet where
  back_strict : Mat
  back_loose : Mat
  foreground : Mat
  graymask : Mat

/-- Fold of the contour loop (lines 538-577) from its initial state: a
black foreground mask and the white inset rectangle as loose
background (lines 523-536), `detected = false`. -/
def synthFold (roi : Mat) (contours : List Contour) : SynthState :=
  contours.foldl (synthStep roi.rows roi.cols)
    ⟨zerosMat roi.rows roi.cols,
     draw (zerosMat roi.rows roi.cols) (insetRect roi.rows roi.cols) 255,
     false⟩

/-- Mask synthesis for a successfully detected ROI (lines 509-584):
fold the contour loop, then erode the loose background `padding` times
with the 3x3 kernel to obtain the strict background. -/
def synthMasks (roi raster : Mat) (contours : List Contour) : MaskSet × Bool :=
  (⟨erode3^[padding] (synthFold roi contours).bgloose,
    (synthFold roi contours).bgloose, (synthFold roi contours).fg, raster⟩,
   (synthFold roi contours).detected)

/-! ### Per-ROI processing -/

/-- One parsed row of the `rois.tsv` manifest (lines 381-408). -/
structure RoiEntry where
  uid : ℤ
  fname : String
  sid : ℤ
  sname : String
  det : Bool
  scaleOk : Bool
  sdark : ℤ
  slight : ℤ

/-- The mask-building part of the per-ROI loop of `process`
(lines 449-608).  `infer` is the neural-network oracle (lines 480-511:
reverse, forward, postprocess to an 8-bit raster) and `findCont` the
`cv::findContours` oracle.  A record with `det = false` skips inference
entirely and yields the 3x3 black placeholders with no foreground
(lines 451-462). -/
def processRoi (cfg : Config) (infer : Mat → Mat) (findCont : Mat → List Contour)
    (e : RoiEntry) (roi : Mat) : MaskSet × Bool :=
  if e.det then
    let raster := infer roi
    let binary := binarizeMat cfg raster
    synthMasks roi raster (findCont binary)
  else (⟨zeros3, zeros3, zeros3, zeros3⟩, false)

/-- The fields of one raw-ledger row (lines 663-667). -/
structure RawRow where
  uid : ℤ
  fname : String
  sid : ℤ
  sname : String
  det : Bool
  scaleOk : Bool
  hasFg : Bool
  fm : ℚ
  fsz : ℤ
  backs : ℚ
  backl : ℚ
  sdark : ℤ
  slight : ℤ

/-- The raw-row computation of the emission loop (lines 625-667): if
the ROI has foreground, dilate the foreground mask twice and take the
masked mean and the nonzero count; otherwise both sentinels are -1.
The two background means are always computed against the masks. -/
def rawRowOf (e : RoiEntry) (roi : Mat) (ms : MaskSet) (hfg : Bool) : RawRow :=
  let morph := dilate3 (dilate3 ms.foreground)
  { uid := e.uid, fname := e.fname, sid := e.sid, sname := e.sname,
    det := e.det, scaleOk := e.scaleOk, hasFg := hfg,
    fm := if hfg then meanMasked roi morph else -1,
    fsz := if hfg then (nzCount morph : ℤ) else -1,
    backs := meanMasked roi ms.back_strict,
    backl := meanMasked roi ms.back_loose,
    sdark := e.sdark, slight := e.slight }

/-- The stats-row gate of lines 673-677, in the order the code checks the
eleven conjuncts. -/
def statsGate (r : RawRow) : Bool :=
  r.det && r.scaleOk && r.hasFg &&
  decide (0 < r.fsz) && decide (0 < r.fm) && decide (0 < r.backs - r.fm) &&
  decide (0 < r.slight) && decide (0 < r.sdark) &&
  decide (r.sdark < r.slight) &&
  decide (0 < r.backl) && decide (0 < r.backs)

/-- The eight arguments passed to `log` in the stats row (lines
679-691), in emission order: `log.abs`, `log.delta`, `log.light`,
`log.dark`, `log.back`, `log.back.strict`, `log.mean`, `log.sz`. -/
def logArgs (r : RawRow) : List ℚ :=
  [(r.backs - r.fm) * (r.fsz : ℚ), ((r.slight - r.sdark : ℤ) : ℚ),
   (r.slight : ℚ), (r.sdark : ℚ), r.backl, r.backs, r.fm, (r.fsz : ℚ)]

/-- Conditional stats-row emission (lines 673-692): a stats row (its
log arguments) exists iff the gate passes. -/
def statsRowOf (r : RawRow) : Option (List ℚ) :=
  if statsGate r then some (logArgs r) else none

/-- The complete per-ROI result: masks are built, exactly one raw row
is produced, and a stats row is produced iff the gate passes. -/
def perRoi (cfg : Config) (infer : Mat → Mat) (findCont : Mat → List Contour)
    (e : RoiEntry) (roi : Mat) : RawRow × Option (List ℚ) :=
  let mh := processRoi cfg infer findCont e roi
  let row := rawRowOf e roi mh.1 mh.2
  (row, statsRowOf row)

/-! ### Properties of the statistics gate (C2) -/

/-- C2: a stats ledger row is emitted iff all eleven gate conditions of
blobnn.cpp lines 673-677 hold (detection succeeded, scale calibration
succeeded, foreground present, foreground-size > 0, foreground-mean > 0,
background-strict-mean − foreground-mean > 0, scale-light > 0,
scale-dark > 0, scale-light > scale-dark, background-loose-mean > 0,
background-strict-mean > 0), and for any emitted stats row every value
passed to the natural-log function is strictly positive. -/
theorem C2_stats_gate (r : RawRow) :
    ((statsRowOf r).isSome = true ↔
      (r.det = true ∧ r.scaleOk = true ∧ r.hasFg = true ∧
       0 < r.fsz ∧ 0 < r.fm ∧ 0 < r.backs - r.fm ∧
       0 < r.slight ∧ 0 < r.sdark ∧ r.sdark < r.slight ∧
       0 < r.backl ∧ 0 < r.backs)) ∧
    (∀ args, statsRowOf r = some args → ∀ x ∈ args, 0 < x) := by
  have hgate : statsGate r = true ↔
      (r.det = true ∧ r.scaleOk = true ∧ r.hasFg = true ∧
       0 < r.fsz ∧ 0 < r.fm ∧ 0 < r.backs - r.fm ∧
       0 < r.slight ∧ 0 < r.sdark ∧ r.sdark < r.slight ∧
       0 < r.backl ∧ 0 < r.backs) := by
    simp [statsGate, and_assoc]
  constructor
  · refine Iff.trans ?_ hgate
    unfold statsRowOf
    by_cases h : statsGate r = true <;> simp [h]
  · intro args hargs x hx
    have hg : statsGate r = true := by
      by_contra h
      unfold statsRowOf at hargs
      simp [h] at hargs
    obtain ⟨hdet, hscale, hfg, hfsz, hfm, hdiff, hlight, hdark, hld, hbl, hbs⟩ :=
      hgate.mp hg
    have hargs2 : args = logArgs r := by
      unfold statsRowOf at hargs
      simp [hg] at hargs
      exact hargs.symm
    subst hargs2
    have hfszq : (0 : ℚ) < (r.fsz : ℚ) := by exact_mod_cast hfsz
    have hlq : (0 : ℚ) < (r.slight : ℚ) := by exact_mod_cast hlight
    have hdq : (0 : ℚ) < (r.sdark : ℚ) := by exact_mod_cast hdark
    have hldq : (0 : ℚ) < ((r.slight - r.sdark : ℤ) : ℚ) := by
      have : (0 : ℤ) < r.slight - r.sdark := by omega
      exact_mod_cast this
    simp only [logArgs, List.mem_cons, List.not_mem_nil, or_false] at hx
    rcases hx with h | h | h | h | h | h | h | h <;> subst h
    · exact mul_pos hdiff hfszq
    · exact hldq
    · exact hlq
    · exact hdq
    · exact hbl
    · exact hbs
    · exact hfm
    · exact hfszq

/-- An example row passing the statistics gate, for the witness. -/
def rawRowEx : RawRow :=
  { uid := 5, fname := "5.jpg", sid := 1, sname := "s1",
    det := true, scaleOk := true, hasFg := true,
    fm := 2, fsz := 3, backs := 5, backl := 4, sdark := 1, slight := 2 }

/-- Witness for C2 at a concrete gate-passing row: a stats row is
emitted and its first log argument, `(5 - 2) * 3 = 9`, is positive. -/
theorem C2_stats_gate_witness :
    statsRowOf rawRowEx = some (logArgs rawRowEx) ∧ (0 : ℚ) < (9 : ℚ) := by
  have hsome : statsRowOf rawRowEx = some (logArgs rawRowEx) := by
    norm_num [statsRowOf, statsGate, rawRowEx]
  have hmem : (9 : ℚ) ∈ logArgs rawRowEx := by
    norm_num [logArgs, rawRowEx]
  exact ⟨hsome, (C2_stats_gate rawRowEx).2 (logArgs rawRowEx) hsome (9 : ℚ) hmem⟩

/-! ### Failed detections (C6) -/

/-- C6: a record whose detection-success flag is false skips inference,
degenerates all four masks to 3x3 all-black placeholders with
has-foreground false, still yields exactly one raw row with
foreground-mean = -1, foreground-size = -1 and both background means 0,
and yields no stats row. -/
theorem C6_failed_detection (cfg : Config) (infer : Mat → Mat)
    (findCont : Mat → List Contour) (e : RoiEntry) (roi : Mat)
    (h : e.det = false) :
    processRoi cfg infer findCont e roi =
      (⟨zeros3, zeros3, zeros3, zeros3⟩, false) ∧
    perRoi cfg infer findCont e roi =
      ({ uid := e.uid, fname := e.fname, sid := e.sid, sname := e.sname,
         det := false, scaleOk := e.scaleOk, hasFg := false,
         fm := -1, fsz := -1, backs := 0, backl := 0,
         sdark := e.sdark, slight := e.slight }, none) := by
  have hp : processRoi cfg infer findCont e roi =
      (⟨zeros3, zeros3, zeros3, zeros3⟩, false) := by
    simp [processRoi, h]
  refine ⟨hp, ?_⟩
  have hmean : meanMasked roi zeros3 = 0 := by
    simp [meanMasked, nzCount, nzPixels, zeros3, zerosMat]
  unfold perRoi
  rw [hp]
  simp [rawRowOf, hmean, h, statsRowOf, statsGate]

/-- A concrete manifest record with a failed detection. -/
def roiEntryFailEx : RoiEntry := ⟨7, "7.jpg", 1, "s1", false, true, 10, 200⟩

/-- Witness for C6 at the concrete failed record `uid = 7`. -/
theorem C6_failed_detection_witness :
    perRoi defaultConfig id (fun _ => []) roiEntryFailEx zeros3 =
      ({ uid := 7, fname := "7.jpg", sid := 1, sname := "s1",
         det := false, scaleOk := true, hasFg := false,
         fm := -1, fsz := -1, backs := 0, backl := 0,
         sdark := 10, slight := 200 }, none) :=
  (C6_failed_detection defaultConfig id (fun _ => []) roiEntryFailEx zeros3 rfl).2

/-! ### The foreground union property (C7) -/

/-- Unfolding of the contour fold for the foreground mask: a pixel of
the folded foreground is nonzero iff it was nonzero in the initial
state or some area-passing contour of the list covers it. -/
theorem foldl_synthStep_fg (rows cols : ℕ) (l : List Contour)
    (s : SynthState) (r c : ℤ) :
    (l.foldl (synthStep rows cols) s).fg.px r c ≠ 0 ↔
      (s.fg.px r c ≠ 0 ∨
        ∃ k ∈ l, passesArea k = true ∧ k.region r c = true) := by
  induction l generalizing s with
  | nil => simp
  | cons a l ih =>
    rw [List.foldl_cons, ih]
    unfold synthStep
    by_cases hp : passesArea a = true
    · simp only [hp, if_true, draw]
      by_cases hreg : a.region r c = true
      · simp [hreg, hp]
      · simp only [hreg, if_false, List.mem_cons]
        constructor
        · rintro (hs | ⟨k, hk, hpass, hr⟩)
          · exact Or.inl hs
          · exact Or.inr ⟨k, Or.inr hk, hpass, hr⟩
        · rintro (hs | ⟨k, hk | hk, hpass, hr⟩)
          · exact Or.inl hs
          · subst hk
            simp [hreg] at hr
          · exact Or.inr ⟨k, hk, hpass, hr⟩
    · simp only [hp, if_false, List.mem_cons]
      constructor
      · rintro (hs | ⟨k, hk, hpass, hr⟩)
        · exact Or.inl hs
        · exact Or.inr ⟨k, Or.inr hk, hpass, hr⟩
      · rintro (hs | ⟨k, hk | hk, hpass, hr⟩)
        · exact Or.inl hs
        · subst hk
          exact absurd hpass hp
        · exact Or.inr ⟨k, hk, hpass, hr⟩

/-- Unfolding of the contour fold for the `detected` flag. -/
theorem foldl_synthStep_detected (rows cols : ℕ) (l : List Contour)
    (s : SynthState) :
    (l.foldl (synthStep rows cols) s).detected =
      (s.detected || l.any passesArea) := by
  induction l generalizing s with
  | nil => simp
  | cons a l ih =>
    rw [List.foldl_cons, ih]
    unfold synthStep
    by_cases hp : passesArea a = true
    · simp [hp]
    · rw [Bool.not_eq_true] at hp
      simp [hp]

/-- C7: the foreground mask is exactly the union of the filled regions
of the contours whose area satisfies `1000 < area < 50000` — contours
outside the band contribute no pixels and passing contours accumulate —
and has-foreground is true iff at least one contour passed. -/
theorem C7_foreground_union (roi raster : Mat) (contours : List Contour)
    (r c : ℤ) :
    ((synthMasks roi raster contours).1.foreground.px r c ≠ 0 ↔
      ∃ k ∈ contours, passesArea k = true ∧ k.region r c = true) ∧
    ((synthMasks roi raster contours).2 = true ↔
      ∃ k ∈ contours, passesArea k = true) := by
  have h1 : (synthMasks roi raster contours).1.foreground =
      (synthFold roi contours).fg := rfl
  have h2 : (synthMasks roi raster contours).2 =
      (synthFold roi contours).detected := rfl
  rw [h1, h2]
  unfold synthFold
  constructor
  · rw [foldl_synthStep_fg]
    simp [zerosMat]
  · rw [foldl_synthStep_detected]
    simp [List.any_eq_true]

/-! ### Strict and loose background (C8) -/

/-- One erosion never adds pixels: a nonzero eroded pixel was nonzero
in the source mask (the center offset of the kernel is in extent). -/
theorem erode3_subset (m : Mat) (r c : ℤ)
    (h : (erode3 m).px r c ≠ 0) : m.px r c ≠ 0 := by
  unfold erode3 at h
  simp only at h
  split at h
  · next hcond =>
    rw [Bool.and_eq_true] at hcond
    obtain ⟨hin, hall⟩ := hcond
    rw [List.all_eq_true] at hall
    have h0 := hall 0 (by decide)
    rw [List.all_eq_true] at h0
    have h00 := h0 0 (by decide)
    rw [add_zero, add_zero, hin] at h00
    simpa using h00
  · exact absurd rfl h

/-- Iterated erosion never adds pixels. -/
theorem erode3_iter_subset (n : ℕ) (m : Mat) (r c : ℤ)
    (h : (erode3^[n] m).px r c ≠ 0) : m.px r c ≠ 0 := by
  induction n generalizing m with
  | zero => simpa using h
  | succ n ih =>
    rw [Function.iterate_succ_apply] at h
    exact erode3_subset m r c (ih (erode3 m) h)

/-- C8: for a successfully detected ROI, the strict background mask is
the loose background mask eroded by the 3x3 square structuring element
iterated `padding = 5` times, and hence its nonzero pixels are a subset
of the nonzero pixels of the loose background mask. -/
theorem C8_strict_subset_loose (cfg : Config) (infer : Mat → Mat)
    (findCont : Mat → List Contour) (e : RoiEntry) (roi : Mat)
    (h : e.det = true) :
    (processRoi cfg infer findCont e roi).1.back_strict =
      erode3^[padding] (processRoi cfg infer findCont e roi).1.back_loose ∧
    ∀ r c : ℤ,
      (processRoi cfg infer findCont e roi).1.back_strict.px r c ≠ 0 →
      (processRoi cfg infer findCont e roi).1.back_loose.px r c ≠ 0 := by
  have hp : processRoi cfg infer findCont e roi =
      synthMasks roi (infer roi) (findCont (binarizeMat cfg (infer roi))) := by
    simp [processRoi, h]
  rw [hp]
  refine ⟨rfl, ?_⟩
  intro r c hh
  exact erode3_iter_subset padding _ r c hh

/-- A concrete manifest record with a successful detection. -/
def roiEntryDetEx : RoiEntry := ⟨5, "5.jpg", 1, "s1", true, true, 10, 200⟩

/-- Witness for C8 at a concrete detected record. -/
theorem C8_strict_subset_loose_witness :
    (processRoi defaultConfig id (fun _ => []) roiEntryDetEx zeros3).1.back_strict =
      erode3^[padding]
        (processRoi defaultConfig id (fun _ => []) roiEntryDetEx zeros3).1.back_loose :=
  (C8_strict_subset_loose defaultConfig id (fun _ => []) roiEntryDetEx zeros3 rfl).1

/-! ### Ledger merge

The merge works on whole ledger lines.  A uid key is parsed from the
leading column of a line (`strchr` to the first tab, then `atoi`,
blobnn.cpp lines 266-268 and 381-382); the model carries the parser as
a parameter `parse`, and the per-entry fresh row computation as a
parameter `fresh` (one raw row always, a stats row conditionally — a
list covers both ledgers). -/

/-- The manifest scanning loop of `main` (lines 371-418) restricted to
what the merge consumes: lines of length at most 1 are skipped
entirely (line 373); an in-range uid contributes an entry; an
out-of-range uid only raises the running maximum `max_id` (line 385),
which starts at 1 (line 43). -/
def scanAux (parse : String → ℤ) (sId eId : ℤ) :
    List String → List String × ℤ → List String × ℤ
  | [], acc => acc
  | line :: rest, acc =>
    if line.length ≤ 1 then scanAux parse sId eId rest acc
    else if sId ≤ parse line ∧ parse line ≤ eId then
      scanAux parse sId eId rest (acc.1 ++ [line], acc.2)
    else
      scanAux parse sId eId rest
        (acc.1, if acc.2 < parse line then parse line else acc.2)

/-- The whole manifest scan: in-range lines in order, and the final
`max_id`. -/
def scanManifest (parse : String → ℤ) (sId eId : ℤ)
    (manifest : List String) : List String × ℤ :=
  scanAux parse sId eId manifest ([], 1)

/-- The integers from `lo` to `hi` inclusive (empty when `hi < lo`),
the index set of a carry-forward `for` loop. -/
def intRange (lo hi : ℤ) : List ℤ :=
  (List.range (hi + 1 - lo).toNat).map (fun n : ℕ => lo + (n : ℤ))

/-- One carry-forward phase (lines 617-623 and 713-719): for every id
from `lo` to `hi` in turn, re-emit every previously loaded line whose
parsed key equals that id, in original relative order. -/
def carryRange (parse : String → ℤ) (lo hi : ℤ)
    (prior : List String) : List String :=
  (intRange lo hi).flatMap
    (fun i => prior.filter (fun s => decide (parse s = i)))

/-- One full run of the ledger merge for one ledger file: the previous
content is loaded in memory, the file is rewritten as carry-forward-low
(ids 1 to start−1), then the freshly computed rows of the scanned
in-range manifest entries, then carry-forward-high (ids end+1 to the
scanned `max_id`). -/
def runPipeline (parse : String → ℤ) (fresh : String → List String)
    (sId eId : ℤ) (prior manifest : List String) : List String :=
  carryRange parse 1 (sId - 1) prior ++
  (scanManifest parse sId eId manifest).1.flatMap fresh ++
  carryRange parse (eId + 1) (scanManifest parse sId eId manifest).2 prior

/-- Predicate for manifest lines that become entries of the run: long
enough and with an in-range uid. -/
def keeps (parse : String → ℤ) (sId eId : ℤ) (line : String) : Bool :=
  !decide (line.length ≤ 1) && decide (sId ≤ parse line ∧ parse line ≤ eId)

/-- Predicate for manifest lines skipped for an out-of-range uid — the
only lines that update the running maximum. -/
def skips (parse : String → ℤ) (sId eId : ℤ) (line : String) : Bool :=
  !decide (line.length ≤ 1) && !decide (sId ≤ parse line ∧ parse line ≤ eId)

theorem if_lt_eq_max (a b : ℤ) : (if a < b then b else a) = max a b := by
  rw [max_def]
  split_ifs <;> omega

/-- The entries of the scan are the kept lines, appended to the
accumulator. -/
theorem scanAux_fst (parse : String → ℤ) (sId eId : ℤ)
    (m : List String) (acc : List String × ℤ) :
    (scanAux parse sId eId m acc).1 =
      acc.1 ++ m.filter (keeps parse sId eId) := by
  induction m generalizing acc with
  | nil => simp [scanAux]
  | cons line rest ih =>
    by_cases h1 : line.length ≤ 1
    · simp [scanAux, h1, ih, keeps]
    · by_cases h2 : sId ≤ parse line ∧ parse line ≤ eId
      · simp [scanAux, h1, h2, ih, keeps]
      · simp [scanAux, h1, h2, ih, keeps]

/-- The final `max_id` of the scan is the running maximum of the
parsed keys of the skipped lines. -/
theorem scanAux_snd (parse : String → ℤ) (sId eId : ℤ)
    (m : List String) (acc : List String × ℤ) :
    (scanAux parse sId eId m acc).2 =
      (m.filter (skips parse sId eId)).foldl
        (fun mx s => max mx (parse s)) acc.2 := by
  induction m generalizing acc with
  | nil => simp [scanAux]
  | cons line rest ih =>
    by_cases h1 : line.length ≤ 1
    · simp [scanAux, h1, ih, skips]
    · by_cases h2 : sId ≤ parse line ∧ parse line ≤ eId
      · simp [scanAux, h1, h2, ih, skips]
      · have hstep : scanAux parse sId eId (line :: rest) acc =
            scanAux parse sId eId rest
              (acc.1, if acc.2 < parse line then parse line else acc.2) := by
          simp [scanAux, h1, h2]
        have hsk : skips parse sId eId line = true := by
          simp [skips, h1, h2]
        rw [hstep, ih, List.filter_cons, if_pos hsk, List.foldl_cons,
          if_lt_eq_max]

/-- A scanned entry has an in-range key. -/
theorem scanManifest_mem_range (parse : String → ℤ) (sId eId : ℤ)
    (manifest : List String) (s : String)
    (h : s ∈ (scanManifest parse sId eId manifest).1) :
    sId ≤ parse s ∧ parse s ≤ eId := by
  unfold scanManifest at h
  rw [scanAux_fst] at h
  simp only [List.nil_append, List.mem_filter, keeps, Bool.and_eq_true,
    decide_eq_true_eq] at h
  exact h.2.2

theorem mem_intRange {lo hi i : ℤ} : i ∈ intRange lo hi ↔ lo ≤ i ∧ i ≤ hi := by
  unfold intRange
  rw [List.mem_map]
  constructor
  · rintro ⟨n, hn, rfl⟩
    rw [List.mem_range] at hn
    omega
  · rintro ⟨h1, h2⟩
    refine ⟨(i - lo).toNat, ?_, ?_⟩
    · rw [List.mem_range]
      omega
    · omega

theorem intRange_nodup (lo hi : ℤ) : (intRange lo hi).Nodup := by
  unfold intRange
  refine List.Nodup.map ?_ (List.nodup_range _)
  intro a b h
  have h2 : (a : ℤ) = (b : ℤ) := add_left_cancel h
  exact_mod_cast h2

theorem filter_flatMap_eq {α β : Type} (l : List α) (f : α → List β)
    (q : β → Bool) :
    (l.flatMap f).filter q = l.flatMap (fun a => (f a).filter q) := by
  induction l with
  | nil => rfl
  | cons a t ih => simp [List.flatMap_cons, List.filter_append, ih]

theorem flatMap_if_single {β : Type} (l : List ℤ) (hl : l.Nodup) (i : ℤ)
    (X : List β) :
    (l.flatMap fun j => if j = i then X else []) =
      if i ∈ l then X else [] := by
  induction l with
  | nil => simp
  | cons a t ih =>
    rw [List.flatMap_cons]
    rcases List.nodup_cons.mp hl with ⟨ha, ht⟩
    by_cases hai : a = i
    · subst hai
      have hnil : (t.flatMap fun j => if j = a then X else []) = [] := by
        rw [List.flatMap_eq_nil_iff]
        intro x hx
        rw [if_neg]
        intro hxa
        exact ha (hxa ▸ hx)
      simp [hnil]
    · rw [if_neg hai, List.nil_append, ih ht]
      by_cases hit : i ∈ t
      · rw [if_pos hit, if_pos (List.mem_cons_of_mem a hit)]
      · have hnc : i ∉ a :: t := by
          intro hmem
          rcases List.mem_cons.mp hmem with h | h
          · exact hai h.symm
          · exact hit h
        rw [if_neg hit, if_neg hnc]

/-- Filtering a carry-forward segment by one key: inside the segment
range this recovers the filtered prior content, outside it nothing. -/
theorem filter_carryRange (parse : String → ℤ) (lo hi i : ℤ)
    (P : List String) :
    (carryRange parse lo hi P).filter (fun s => decide (parse s = i)) =
      if lo ≤ i ∧ i ≤ hi then
        P.filter (fun s => decide (parse s = i))
      else [] := by
  unfold carryRange
  rw [filter_flatMap_eq]
  have hstep : ∀ j : ℤ,
      ((P.filter (fun s => decide (parse s = j))).filter
        (fun s => decide (parse s = i))) =
      if j = i then P.filter (fun s => decide (parse s = i)) else [] := by
    intro j
    by_cases hji : j = i
    · subst hji
      rw [if_pos rfl, List.filter_filter]
      apply List.filter_congr
      intro x hx
      simp
    · rw [if_neg hji, List.filter_eq_nil_iff]
      intro x hx
      rcases List.mem_filter.mp hx with ⟨hxm, hxj⟩
      simp only [decide_eq_true_eq] at hxj ⊢
      rw [hxj]
      exact fun h => hji h
  calc (intRange lo hi).flatMap
        (fun j => (P.filter (fun s => decide (parse s = j))).filter
          (fun s => decide (parse s = i)))
      = (intRange lo hi).flatMap
          (fun j => if j = i then
            P.filter (fun s => decide (parse s = i)) else []) := by
        apply List.flatMap_congr
        intro j hj
        exact hstep j
    _ = if i ∈ intRange lo hi then
          P.filter (fun s => decide (parse s = i)) else [] :=
        flatMap_if_single _ (intRange_nodup lo hi) _ _
    _ = if lo ≤ i ∧ i ≤ hi then
          P.filter (fun s => decide (parse s = i)) else [] := by
        by_cases h : lo ≤ i ∧ i ≤ hi
        · rw [if_pos (mem_intRange.mpr h), if_pos h]
        · rw [if_neg (fun hm => h (mem_intRange.mp hm)), if_neg h]

/-- Membership in a carry-forward segment: a line is re-emitted iff it
was previously loaded and its key lies in the segment range. -/
theorem mem_carryRange (parse : String → ℤ) (lo hi : ℤ)
    (P : List String) (l : String) :
    l ∈ carryRange parse lo hi P ↔
      (l ∈ P ∧ lo ≤ parse l ∧ parse l ≤ hi) := by
  unfold carryRange
  rw [List.mem_flatMap]
  constructor
  · rintro ⟨i, hi, hl⟩
    rcases List.mem_filter.mp hl with ⟨hlm, hkey⟩
    rw [decide_eq_true_eq] at hkey
    rcases mem_intRange.mp hi with ⟨h1, h2⟩
    exact ⟨hlm, by omega, by omega⟩
  · rintro ⟨hlm, h1, h2⟩
    exact ⟨parse l, mem_intRange.mpr ⟨h1, h2⟩,
      List.mem_filter.mpr ⟨hlm, by simp⟩⟩

/-- Congruence for carry-forward: two prior contents that agree, key
by key, over the segment range produce the same segment. -/
theorem carryRange_congr (parse : String → ℤ) (lo hi : ℤ)
    (P Q : List String)
    (h : ∀ i, lo ≤ i → i ≤ hi →
      P.filter (fun s => decide (parse s = i)) =
      Q.filter (fun s => decide (parse s = i))) :
    carryRange parse lo hi P = carryRange parse lo hi Q := by
  unfold carryRange
  apply List.flatMap_congr
  intro i hi
  rcases mem_intRange.mp hi with ⟨h1, h2⟩
  exact h i h1 h2

/-- C4: in the carry-forward-high phase, previously loaded lines are
re-emitted exactly for the integer ids from end + 1 up to the tracked
bound: a line is re-emitted iff it was loaded and its key lies in
[end + 1, max_id], where max_id is the running maximum (started at 1)
of the keys of exactly those manifest lines skipped because their uid
fell outside [start, end]; in particular a loaded line whose key
exceeds that bound is not re-emitted. -/
theorem C4_carry_high (parse : String → ℤ) (sId eId : ℤ)
    (prior manifest : List String) :
    (scanManifest parse sId eId manifest).2 =
      (manifest.filter (skips parse sId eId)).foldl
        (fun mx s => max mx (parse s)) 1 ∧
    ∀ l, (l ∈ carryRange parse (eId + 1)
        (scanManifest parse sId eId manifest).2 prior ↔
      (l ∈ prior ∧ eId + 1 ≤ parse l ∧
        parse l ≤ (scanManifest parse sId eId manifest).2)) := by
  constructor
  · unfold scanManifest
    rw [scanAux_snd]
  · intro l
    exact mem_carryRange parse (eId + 1) _ prior l

/-- C5: idempotence of the merge.  Running the pipeline a second time
with the same manifest, the same fresh-row computation (identical
source images) and the same well-formed range [start, end] reproduces
the first output byte for byte. -/
theorem C5_merge_idempotent (parse : String → ℤ) (fresh : String → List String)
    (sId eId : ℤ) (hse : sId ≤ eId)
    (hfr : ∀ s t, t ∈ fresh s → parse t = parse s)
    (prior manifest : List String) :
    runPipeline parse fresh sId eId
      (runPipeline parse fresh sId eId prior manifest) manifest =
    runPipeline parse fresh sId eId prior manifest := by
  have hFkey : ∀ t ∈ (scanManifest parse sId eId manifest).1.flatMap fresh,
      sId ≤ parse t ∧ parse t ≤ eId := by
    intro t ht
    rcases List.mem_flatMap.mp ht with ⟨s, hs, hts⟩
    have hr := scanManifest_mem_range parse sId eId manifest s hs
    rw [hfr s t hts]
    exact hr
  have hsplit : ∀ i : ℤ,
      (runPipeline parse fresh sId eId prior manifest).filter
          (fun s => decide (parse s = i)) =
        ((carryRange parse 1 (sId - 1) prior).filter
            (fun s => decide (parse s = i)) ++
          ((scanManifest parse sId eId manifest).1.flatMap fresh).filter
            (fun s => decide (parse s = i))) ++
          (carryRange parse (eId + 1) (scanManifest parse sId eId manifest).2
            prior).filter (fun s => decide (parse s = i)) := by
    intro i
    unfold runPipeline
    rw [List.filter_append, List.filter_append]
  have hlow : carryRange parse 1 (sId - 1)
        (runPipeline parse fresh sId eId prior manifest) =
      carryRange parse 1 (sId - 1) prior := by
    apply carryRange_congr
    intro i h1 h2
    have hyes : 1 ≤ i ∧ i ≤ sId - 1 := ⟨h1, h2⟩
    have hno : ¬(eId + 1 ≤ i ∧
        i ≤ (scanManifest parse sId eId manifest).2) := by
      omega
    have e1 : (carryRange parse 1 (sId - 1) prior).filter
          (fun s => decide (parse s = i)) =
        prior.filter (fun s => decide (parse s = i)) := by
      rw [filter_carryRange, if_pos hyes]
    have e2 : ((scanManifest parse sId eId manifest).1.flatMap fresh).filter
        (fun s => decide (parse s = i)) = [] := by
      rw [List.filter_eq_nil_iff]
      intro t ht
      rcases hFkey t ht with ⟨ha, hb⟩
      simp only [decide_eq_true_eq]
      omega
    have e3 : (carryRange parse (eId + 1)
          (scanManifest parse sId eId manifest).2 prior).filter
        (fun s => decide (parse s = i)) = [] := by
      rw [filter_carryRange, if_neg hno]
    rw [hsplit i, e1, e2, e3, List.append_nil, List.append_nil]
  have hhigh : carryRange parse (eId + 1)
        (scanManifest parse sId eId manifest).2
        (runPipeline parse fresh sId eId prior manifest) =
      carryRange parse (eId + 1)
        (scanManifest parse sId eId manifest).2 prior := by
    apply carryRange_congr
    intro i h1 h2
    have hno : ¬(1 ≤ i ∧ i ≤ sId - 1) := by omega
    have e1 : (carryRange parse 1 (sId - 1) prior).filter
        (fun s => decide (parse s = i)) = [] := by
      rw [filter_carryRange, if_neg hno]
    have e2 : ((scanManifest parse sId eId manifest).1.flatMap fresh).filter
        (fun s => decide (parse s = i)) = [] := by
      rw [List.filter_eq_nil_iff]
      intro t ht
      rcases hFkey t ht with ⟨ha, hb⟩
      simp only [decide_eq_true_eq]
      omega
    have e3 : (carryRange parse (eId + 1)
          (scanManifest parse sId eId manifest).2 prior).filter
        (fun s => decide (parse s = i)) =
        prior.filter (fun s => decide (parse s = i)) := by
      rw [filter_carryRange, if_pos ⟨h1, h2⟩]
    rw [hsplit i, e1, e2, e3, List.nil_append, List.nil_append]
  show carryRange parse 1 (sId - 1)
      (runPipeline parse fresh sId eId prior manifest) ++
    (scanManifest parse sId eId manifest).1.flatMap fresh ++
    carryRange parse (eId + 1) (scanManifest parse sId eId manifest).2
      (runPipeline parse fresh sId eId prior manifest) =
    runPipeline parse fresh sId eId prior manifest
  rw [hlow, hhigh]
  rfl

/-- A concrete uid parser for closed runs of the merge model: value of
the leading decimal-digit run of the line — the effect of
null-terminating at the first tab and calling `atoi` (blobnn.cpp lines
266-268 and 381-382) on a line whose first column is a plain decimal
number. -/
def parseKey (s : String) : ℤ :=
  (((s.toList.takeWhile Char.isDigit).foldl
    (fun a c => 10 * a + (c.toNat - 48)) 0 : ℕ) : ℤ)

/-- A concrete fresh-row function for closed runs: the regenerated row
for a manifest line keeps its uid column and appends a marker. -/
def toyFresh (s : String) : List String := [s ++ "!"]

/-- Witness for C5 at a concrete run: prior ledger with one row keyed
2, manifest with one row keyed 3, range [1, 10]. -/
theorem C5_merge_idempotent_witness :
    runPipeline parseKey (fun s => [s]) 1 10
      (runPipeline parseKey (fun s => [s]) 1 10 ["2\ta"] ["3\tb"]) ["3\tb"] =
    runPipeline parseKey (fun s => [s]) 1 10 ["2\ta"] ["3\tb"] :=
  C5_merge_idempotent parseKey (fun s => [s]) 1 10 (by decide)
    (fun s t ht => by
      rw [List.mem_singleton] at ht
      rw [ht])
    ["2\ta"] ["3\tb"]

/-- C3: counterexample to the range-partition claim.  With configured
range [1, 10], a prior ledger containing a row keyed 20 and a manifest
whose only row (uid 5) lies inside the range, the run output consists
of the regenerated uid-5 row alone: the prior row with key 20 > end is
dropped, although the claim says ledger content for every uid > end
equals the previous content.  The tracked maximum stays at 1 because no
manifest line was skipped, so the carry-forward-high loop body never
runs. -/
theorem C3_high_rows_dropped :
    runPipeline parseKey toyFresh 1 10 ["5\ta", "20\tb"] ["5\ts"] =
      ["5\ts!"] ∧
    "20\tb" ∈ (["5\ta", "20\tb"] : List String) ∧
    (10 : ℤ) < parseKey "20\tb" ∧
    "20\tb" ∉ runPipeline parseKey toyFresh 1 10 ["5\ta", "20\tb"] ["5\ts"] := by
  refine ⟨by decide, by decide, by decide, by decide⟩

/-- Skipped short lines leave the whole scan unchanged. -/
theorem scanAux_short (parse : String → ℤ) (sId eId : ℤ)
    (pre post : List String) (s : String) (h : s.length ≤ 1)
    (acc : List String × ℤ) :
    scanAux parse sId eId (pre ++ s :: post) acc =
      scanAux parse sId eId (pre ++ post) acc := by
  induction pre generalizing acc with
  | nil =>
    simp only [List.nil_append]
    simp [scanAux, h]
  | cons x t ih =>
    simp only [List.cons_append, scanAux]
    split_ifs <;> exact ih _

/-- C10: a manifest line of length at most 1 (an empty line) is skipped
entirely: the scan (the entry list and the tracked maximum uid) and
hence the entire run output are the same as if the line were absent, so
it contributes no ROI record and no ledger row. -/
theorem C10_short_line_skipped (parse : String → ℤ)
    (fresh : String → List String) (sId eId : ℤ)
    (prior pre post : List String) (s : String) (h : s.length ≤ 1) :
    scanManifest parse sId eId (pre ++ s :: post) =
      scanManifest parse sId eId (pre ++ post) ∧
    runPipeline parse fresh sId eId prior (pre ++ s :: post) =
      runPipeline parse fresh sId eId prior (pre ++ post) := by
  have hs : scanManifest parse sId eId (pre ++ s :: post) =
      scanManifest parse sId eId (pre ++ post) := by
    unfold scanManifest
    exact scanAux_short parse sId eId pre post s h ([], 1)
  refine ⟨hs, ?_⟩
  unfold runPipeline
  rw [hs]

/-- Witness for C10: an empty manifest line before a uid-5 row changes
nothing about the run output. -/
theorem C10_short_line_skipped_witness :
    runPipeline parseKey (fun s => [s]) 1 10 ["1\ta"]
        ([] ++ "" :: ["5\tb"]) =
      runPipeline parseKey (fun s => [s]) 1 10 ["1\ta"] ([] ++ ["5\tb"]) :=
  (C10_short_line_skipped parseKey (fun s => [s]) 1 10 ["1\ta"] [] ["5\tb"]
    "" (by decide)).2

end Blobnn
